import Mathlib

/-!
Verification of the Factorio HTTP-controls RCON client.

This file gives a shallow embedding, in Lean, of the RCON protocol client of
the repository: the packet codec (`buildPacket`, `parsePacket`), the streaming
response assembler (`handleData`), the request-id counter
(`getNextRequestId`), the command executor (`executeCommand`,
`authenticate`, `sendCommand`), the reconnect policy (`retryConnection`), and
the save-file orchestration (`listSaves`, `loadSave`).  Byte buffers are
modelled as `List Nat` (each element one byte), JS numbers holding int32
values as `Int`, and thrown JS exceptions as `Except` results.  Each
definition is translated from the corresponding TypeScript source function.
-/

namespace FactorioRcon

/-! ### Node.js Buffer int32 little-endian primitives -/

/-- Unsigned 32-bit two's-complement image of a signed value, as stored by
Node's `Buffer.writeInt32LE`. -/
def toUInt32Image (v : Int) : Nat := (v % 4294967296).toNat

/-- Little-endian byte serialization performed by `Buffer.writeInt32LE`. -/
def int32LEBytes (v : Int) : List Nat :=
  let n := toUInt32Image v
  [n % 256, n / 256 % 256, n / 65536 % 256, n / 16777216 % 256]

/-- Signed interpretation of four little-endian bytes. -/
def int32OfBytes (b0 b1 b2 b3 : Nat) : Int :=
  let n := b0 + 256 * b1 + 65536 * b2 + 16777216 * b3
  if n < 2147483648 then (n : Int) else (n : Int) - 4294967296

/-- `Buffer.readInt32LE` at byte offset `off` (all call sites in the sources
read inside the buffer bounds, and missing bytes default to zero here). -/
def readInt32LE (buf : List Nat) (off : Nat) : Int :=
  int32OfBytes (buf.getD off 0) (buf.getD (off + 1) 0)
    (buf.getD (off + 2) 0) (buf.getD (off + 3) 0)

/-- Index clamping of `Buffer.subarray`: negative indices count from the end
of the buffer, and results are clamped into the valid range. -/
def subarrayIndex (len : Nat) (i : Int) : Nat :=
  if i < 0 then len - (-i).toNat else min i.toNat len

/-- `Buffer.subarray(start, finish)`: the bytes in `[start, finish)`. -/
def jsSubarray (buf : List Nat) (start finish : Int) : List Nat :=
  (buf.take (subarrayIndex buf.length finish)).drop (subarrayIndex buf.length start)

/-! ### Packet codec (rcon.service.ts `buildPacket`,
rcon.response-handler.ts `parsePacket`) -/

/-- `buildPacket(id, type, body)` from `rcon.service.ts`: appends two NUL
bytes to the UTF-8 body, computes `packetSize = bodyBuffer.length + 10`,
allocates `packetSize + 4` zero-filled bytes, and writes size, id, type and
the body buffer contiguously from offset 0; the unwritten tail of the
allocation stays zero.  The body is represented by its UTF-8 bytes. -/
def buildPacket (id type : Int) (body : List Nat) : List Nat :=
  let bodyBuffer := body ++ [0, 0]
  let packetSize : Nat := bodyBuffer.length + 10
  let written := int32LEBytes (packetSize : Int) ++ int32LEBytes id ++
    int32LEBytes type ++ bodyBuffer
  written ++ List.replicate (packetSize + 4 - written.length) 0

/-- Decoded packet at the wire level; `body` holds the UTF-8 bytes of the
decoded body string. -/
structure IRconPacketBytes where
  id : Int
  type : Int
  body : List Nat
deriving DecidableEq

/-- `parsePacket` from `rcon.response-handler.ts`: throws (modelled as
`Except.error`) when fewer than 12 bytes are buffered, otherwise reads id and
type at offsets 4 and 8 and takes the byte range `[12, expectedSize - 2)` as
the body. -/
def parsePacket (buf : List Nat) (expectedSize : Int) :
    Except String IRconPacketBytes :=
  if buf.length < 12 then Except.error "Response too short"
  else Except.ok
    { id := readInt32LE buf 4
      type := readInt32LE buf 8
      body := jsSubarray buf 12 (expectedSize - 2) }

instance {ε α : Type} [DecidableEq ε] [DecidableEq α] : DecidableEq (Except ε α)
  | Except.ok x, Except.ok y =>
    if h : x = y then isTrue (by rw [h]) else isFalse (fun hc => h (by cases hc; rfl))
  | Except.ok _, Except.error _ => isFalse (fun hc => by cases hc)
  | Except.error _, Except.ok _ => isFalse (fun hc => by cases hc)
  | Except.error e, Except.error f =>
    if h : e = f then isTrue (by rw [h]) else isFalse (fun hc => h (by cases hc; rfl))

/-! ### Response assembler (rcon.response-handler.ts `handleData`) -/

/-- State of one `RconResponseHandler`: the accumulated buffer, the expected
total size (0 until the size field has been read), and the settled outcome
(`none` while still waiting). -/
structure HandlerState where
  responseBuffer : List Nat
  expectedSize : Int
  result : Option (Except String IRconPacketBytes)
deriving DecidableEq

def initialHandlerState : HandlerState := ⟨[], 0, none⟩

/-- One `data` event of `RconResponseHandler.handleData`: concatenate the
chunk, read the declared size once at least 4 bytes are buffered, and resolve
with the parsed packet once the buffer reaches the expected length.  After
resolution the handler removes its socket listeners, so a settled state
ignores further chunks. -/
def handleData (st : HandlerState) (data : List Nat) : HandlerState :=
  if st.result.isSome then st
  else
    let buffer := st.responseBuffer ++ data
    let expected :=
      if st.expectedSize = 0 ∧ 4 ≤ buffer.length then readInt32LE buffer 0 + 4
      else st.expectedSize
    if 0 < expected ∧ expected ≤ (buffer.length : Int) then
      ⟨buffer, expected, some (parsePacket buffer expected)⟩
    else
      ⟨buffer, expected, none⟩

/-- Feed a sequence of socket chunks to a fresh response handler. -/
def runHandler (chunks : List (List Nat)) : HandlerState :=
  chunks.foldl handleData initialHandlerState

/-- Decode direction of the codec: feed a whole buffer to the response
handler in a single `data` event and take its settled result. -/
def decodePacket (buf : List Nat) : Option (Except String IRconPacketBytes) :=
  (runHandler [buf]).result

/-! ### Codec lemmas -/

theorem readInt32LE_int32LEBytes (v : Int) (rest : List Nat)
    (h1 : -2147483648 ≤ v) (h2 : v < 2147483648) :
    readInt32LE (int32LEBytes v ++ rest) 0 = v := by
  have hcalc : readInt32LE (int32LEBytes v ++ rest) 0 =
      int32OfBytes (toUInt32Image v % 256) (toUInt32Image v / 256 % 256)
        (toUInt32Image v / 65536 % 256) (toUInt32Image v / 16777216 % 256) := rfl
  rw [hcalc]
  simp only [int32OfBytes, toUInt32Image]
  split <;> omega

theorem readInt32LE_append_left (l r : List Nat) (h : 4 ≤ l.length) :
    readInt32LE (l ++ r) 0 = readInt32LE l 0 := by
  unfold readInt32LE
  rw [List.getD_append _ _ _ _ (by omega), List.getD_append _ _ _ _ (by omega),
    List.getD_append _ _ _ _ (by omega), List.getD_append _ _ _ _ (by omega)]

theorem length_buildPacket (id type : Int) (body : List Nat) :
    (buildPacket id type body).length = body.length + 16 := by
  simp [buildPacket, int32LEBytes]

theorem readInt32LE_buildPacket_zero (id type : Int) (body : List Nat)
    (h : body.length + 12 < 2147483648) :
    readInt32LE (buildPacket id type body) 0 = (body.length : Int) + 12 := by
  have hl : (body ++ [0, 0]).length = body.length + 2 := by simp
  simp only [buildPacket, List.append_assoc]
  rw [readInt32LE_int32LEBytes _ _ (by omega) (by omega)]
  omega

/-! ### Response-assembler lemmas -/

/-- A mid-stream chunk of a framed buffer `B` neither mis-reads the size field
nor resolves early: the handler state advances to the longer consumed prefix.
The stored expected size is `B.length` as soon as four bytes have arrived,
because the size field of `B` declares `B.length - 4`. -/
theorem handleData_step_mid (B P c : List Nat)
    (h12 : 12 ≤ B.length) (hsize : readInt32LE B 0 + 4 = (B.length : Int))
    (hjoin : ∃ R, (P ++ c) ++ R = B) (hlt : (P ++ c).length < B.length) :
    handleData ⟨P, if 4 ≤ P.length then (B.length : Int) else 0, none⟩ c
      = ⟨P ++ c, if 4 ≤ (P ++ c).length then (B.length : Int) else 0, none⟩ := by
  obtain ⟨R, hR⟩ := hjoin
  simp only [handleData, Option.isSome_none, Bool.false_eq_true, if_false]
  by_cases hP4 : 4 ≤ P.length
  · have h4c : 4 ≤ (P ++ c).length := le_trans hP4 (by simp)
    rw [if_pos hP4]
    have he : (if (B.length : Int) = 0 ∧ 4 ≤ (P ++ c).length
        then readInt32LE (P ++ c) 0 + 4 else (B.length : Int)) = (B.length : Int) :=
      if_neg (by omega)
    rw [he, if_neg (show ¬ (0 < (B.length : Int) ∧
        (B.length : Int) ≤ ((P ++ c).length : Int)) by omega),
      if_pos h4c]
  · by_cases h4c : 4 ≤ (P ++ c).length
    · rw [if_neg hP4]
      have he : (if (0 : Int) = 0 ∧ 4 ≤ (P ++ c).length
          then readInt32LE (P ++ c) 0 + 4 else (0 : Int))
          = readInt32LE (P ++ c) 0 + 4 :=
        if_pos ⟨rfl, h4c⟩
      have hr0 : readInt32LE (P ++ c) 0 = readInt32LE B 0 := by
        conv_rhs => rw [← hR]
        exact (readInt32LE_append_left _ _ h4c).symm
      have hread : readInt32LE (P ++ c) 0 + 4 = (B.length : Int) := by
        rw [hr0, hsize]
      rw [he, hread, if_neg (show ¬ (0 < (B.length : Int) ∧
          (B.length : Int) ≤ ((P ++ c).length : Int)) by omega),
        if_pos h4c]
    · rw [if_neg hP4]
      have he : (if (0 : Int) = 0 ∧ 4 ≤ (P ++ c).length
          then readInt32LE (P ++ c) 0 + 4 else (0 : Int)) = (0 : Int) :=
        if_neg (fun hc => h4c hc.2)
      rw [he, if_neg (show ¬ ((0 : Int) < 0 ∧
          (0 : Int) ≤ ((P ++ c).length : Int)) by omega),
        if_neg h4c]

/-- The final chunk of a framed buffer `B` settles the handler with the parse
of the whole buffer. -/
theorem handleData_step_last (B P c : List Nat)
    (h12 : 12 ≤ B.length) (hsize : readInt32LE B 0 + 4 = (B.length : Int))
    (hR : P ++ c = B) :
    handleData ⟨P, if 4 ≤ P.length then (B.length : Int) else 0, none⟩ c
      = ⟨B, (B.length : Int), some (parsePacket B (B.length : Int))⟩ := by
  simp only [handleData, Option.isSome_none, Bool.false_eq_true, if_false, hR]
  by_cases hP4 : 4 ≤ P.length
  · rw [if_pos hP4]
    have he : (if (B.length : Int) = 0 ∧ 4 ≤ B.length
        then readInt32LE B 0 + 4 else (B.length : Int)) = (B.length : Int) :=
      if_neg (by omega)
    rw [he, if_pos (show 0 < (B.length : Int) ∧
        (B.length : Int) ≤ ((B.length : Int)) by omega)]
  · rw [if_neg hP4]
    have he : (if (0 : Int) = 0 ∧ 4 ≤ B.length
        then readInt32LE B 0 + 4 else (0 : Int)) = (B.length : Int) := by
      rw [if_pos ⟨rfl, by omega⟩, hsize]
    rw [he, if_pos (show 0 < (B.length : Int) ∧
        (B.length : Int) ≤ ((B.length : Int)) by omega)]

/-- Folding the handler over the remaining non-empty chunks of a framed
buffer `B`, starting from a consumed proper prefix, always ends settled on
the parse of the whole buffer. -/
theorem foldl_handleData_of_join (B : List Nat) (h12 : 12 ≤ B.length)
    (hsize : readInt32LE B 0 + 4 = (B.length : Int)) :
    ∀ (rs : List (List Nat)) (P : List Nat),
      (∀ c ∈ rs, c ≠ []) → P ++ rs.flatten = B → P.length < B.length →
      List.foldl handleData
        ⟨P, if 4 ≤ P.length then (B.length : Int) else 0, none⟩ rs
        = ⟨B, (B.length : Int), some (parsePacket B (B.length : Int))⟩ := by
  intro rs
  induction rs with
  | nil =>
    intro P hne hjoin hlt
    rw [List.flatten_nil, List.append_nil] at hjoin
    subst hjoin
    omega
  | cons c rs ih =>
    intro P hne hjoin hlt
    rw [List.flatten_cons, ← List.append_assoc] at hjoin
    rw [List.foldl_cons]
    rcases rs with _ | ⟨d, rs2⟩
    · rw [List.flatten_nil, List.append_nil] at hjoin
      rw [handleData_step_last B P c h12 hsize hjoin, List.foldl_nil]
    · have hdne : d ≠ [] := hne d (by simp)
      have hjlen : 0 < (d :: rs2).flatten.length := by
        rcases d with _ | ⟨x, xs⟩
        · exact absurd rfl hdne
        · simp [List.flatten_cons]
      have hltc : (P ++ c).length < B.length := by
        have hlen : (P ++ c).length + (d :: rs2).flatten.length = B.length := by
          rw [← hjoin]
          simp [List.length_append]
          omega
        omega
      rw [handleData_step_mid B P c h12 hsize ⟨_, hjoin⟩ hltc]
      exact ih (P ++ c) (fun e he => hne e (by simp [he])) hjoin hltc

/-! ### Claims on the codec and the assembler -/

/-- Claim C1 (refuted, code bug): decoding the encoded wire buffer does NOT
return the original triple.  At id 7, type 2, body "A" (UTF-8 bytes [65],
which contain no NUL), `buildPacket` fed whole to the response parser yields
body bytes [65, 0, 0]: the two NUL terminators are appended to the body,
because `buildPacket` computes its size field as `bodyBuffer.length + 10`
when `bodyBuffer` already contains the two terminators. -/
theorem decodePacket_buildPacket_appends_nuls :
    decodePacket (buildPacket 7 2 [65]) = some (Except.ok ⟨7, 2, [65, 0, 0]⟩)
    ∧ decodePacket (buildPacket 7 2 [65]) ≠ some (Except.ok ⟨7, 2, [65]⟩) := by
  decide

/-- Claim C2 (refuted, code bug): the int32 size field at offset 0 of the
buffer produced by `buildPacket` is the body byte length plus 12, not plus
10.  At the empty body the size field reads 12 while the specified invariant
demands 10. -/
theorem buildPacket_size_field_plus_twelve :
    readInt32LE (buildPacket 1 2 []) 0 = 12 ∧ ((12 : Int) ≠ 0 + 10) := by
  decide

/-- Claim C6: feeding the bytes of an encoded packet to the response
assembler in arbitrarily split non-empty chunks resolves with the same
decoded packet as feeding the whole buffer in a single chunk, and that run
resolves successfully. -/
theorem runHandler_fragmentation (id type : Int) (body : List Nat)
    (chunks : List (List Nat))
    (hlen : body.length + 12 < 2147483648)
    (hne : ∀ c ∈ chunks, c ≠ [])
    (hflat : chunks.flatten = buildPacket id type body) :
    runHandler chunks = runHandler [buildPacket id type body]
    ∧ ∃ p, (runHandler chunks).result = some (Except.ok p) := by
  have hlB : (buildPacket id type body).length = body.length + 16 :=
    length_buildPacket id type body
  have h12 : 12 ≤ (buildPacket id type body).length := by omega
  have hsize : readInt32LE (buildPacket id type body) 0 + 4
      = ((buildPacket id type body).length : Int) := by
    rw [readInt32LE_buildPacket_zero id type body hlen, hlB]
    push_cast
    ring
  have h0 : (if 4 ≤ ([] : List Nat).length then
      ((buildPacket id type body).length : Int) else 0) = (0 : Int) := by simp
  have hBne : buildPacket id type body ≠ [] := by
    intro hnil
    rw [hnil] at hlB
    simp at hlB
  have hrun : runHandler chunks
      = ⟨buildPacket id type body, ((buildPacket id type body).length : Int),
          some (parsePacket (buildPacket id type body)
            ((buildPacket id type body).length : Int))⟩ := by
    show List.foldl handleData ⟨[], 0, none⟩ chunks = _
    rw [← h0]
    exact foldl_handleData_of_join _ h12 hsize chunks [] hne (by simpa using hflat)
      (by simp only [List.length_nil]; omega)
  have hrun1 : runHandler [buildPacket id type body]
      = ⟨buildPacket id type body, ((buildPacket id type body).length : Int),
          some (parsePacket (buildPacket id type body)
            ((buildPacket id type body).length : Int))⟩ := by
    show List.foldl handleData ⟨[], 0, none⟩ _ = _
    rw [← h0]
    refine foldl_handleData_of_join _ h12 hsize [buildPacket id type body] [] ?_
      (by simp) (by simp only [List.length_nil]; omega)
    intro c hc
    rw [List.mem_singleton] at hc
    rw [hc]
    exact hBne
  refine ⟨hrun.trans hrun1.symm, ?_⟩
  rw [hrun]
  have hok : parsePacket (buildPacket id type body)
      ((buildPacket id type body).length : Int)
      = Except.ok ⟨readInt32LE (buildPacket id type body) 4,
          readInt32LE (buildPacket id type body) 8,
          jsSubarray (buildPacket id type body) 12
            (((buildPacket id type body).length : Int) - 2)⟩ := by
    unfold parsePacket
    rw [if_neg (by omega)]
  exact ⟨_, by rw [hok]⟩

/-- Witness for C6 at a concrete packet split into two chunks. -/
theorem runHandler_fragmentation_witness :
    (([65] : List Nat).length + 12 < 2147483648)
    ∧ (∀ c ∈ [(buildPacket 1 0 [65]).take 3, (buildPacket 1 0 [65]).drop 3],
        c ≠ ([] : List Nat))
    ∧ ([(buildPacket 1 0 [65]).take 3, (buildPacket 1 0 [65]).drop 3].flatten
        = buildPacket 1 0 [65])
    ∧ (runHandler [(buildPacket 1 0 [65]).take 3, (buildPacket 1 0 [65]).drop 3]
        = runHandler [buildPacket 1 0 [65]]
      ∧ ∃ p, (runHandler [(buildPacket 1 0 [65]).take 3,
          (buildPacket 1 0 [65]).drop 3]).result = some (Except.ok p)) :=
  ⟨by decide, by decide, by decide,
    runHandler_fragmentation 1 0 [65] _ (by decide) (by decide) (by decide)⟩

/-! ### Service layer (rcon.service.ts): executeCommand, authenticate,
sendCommand, getNextRequestId -/

/-- A JS exception as observed by the catch blocks of `rcon.service.ts`:
its class name, whether it is an `instanceof RconError`, and its `message`
and `details` fields. -/
structure JsError where
  name : String
  isRconError : Bool
  message : String
  details : String
deriving DecidableEq

/-- Service-level decoded packet (`IRconPacket` of rcon.types.ts): the body
is the already-decoded text. -/
structure IRconPacket where
  id : Int
  type : Int
  body : String
deriving DecidableEq

/-- Normalized command result (`IRconResponse` of rcon.types.ts). -/
structure IRconResponse where
  status : String
  message : String
  details : String
deriving DecidableEq

/-- `executeCommand` from `rcon.service.ts`, as a function of the outcome of
the inner `executeRconCommand` call: a returned string maps to a success
result (with the JS falsy-string default `result || "Command completed"`),
and a thrown error is caught and mapped to an error result. -/
def executeCommand (outcome : Except JsError String) : IRconResponse :=
  match outcome with
  | Except.ok result =>
    { status := "success"
      message := "RCON command executed successfully"
      details := if result = "" then "Command completed" else result }
  | Except.error e =>
    { status := "error"
      message := if e.isRconError then e.message else "RCON execution error"
      details := if e.isRconError then e.details else e.message }

/-- The `RconAuthenticationError` thrown by `authenticate` on a rejected
handshake: `RconAuthenticationError(details)` sets message
"RCON authentication failed" and the given details. -/
def authRejectedError : JsError :=
  { name := "RconAuthenticationError"
    isRconError := true
    message := "RCON authentication failed"
    details := "Authentication rejected - check RCON password and server configuration" }

/-- `authenticate` from `rcon.service.ts`, as a function of the outcome of
the AUTH `sendPacket` call: a missing response or a response with id -1 is
rejected with `RconAuthenticationError`; a thrown non-Rcon error is wrapped
into an `RconAuthenticationError` carrying its message as details. -/
def authenticate (response : Except JsError (Option IRconPacket)) :
    Except JsError Unit :=
  match response with
  | Except.error e =>
    if e.isRconError then Except.error e
    else Except.error
      { name := "RconAuthenticationError", isRconError := true
        message := "RCON authentication failed", details := e.message }
  | Except.ok resp =>
    match resp with
    | none => Except.error authRejectedError
    | some packet =>
      if packet.id = -1 then Except.error authRejectedError else Except.ok ()

/-- `sendCommand` from `rcon.service.ts`: returns `response?.body ?? ""`. -/
def sendCommand (response : Option IRconPacket) : String :=
  match response with
  | some p => p.body
  | none => ""

/-- The executor pipeline on a successfully delivered response packet:
`sendCommand` feeds `executeCommand`'s success branch. -/
def executeCommandOnResponse (response : Option IRconPacket) : IRconResponse :=
  executeCommand (Except.ok (sendCommand response))

/-- `getNextRequestId` from `rcon.service.ts`, on the `requestId` field:
returns the issued id and the successor state, wrapping the state to 1 once
it exceeds 2147483647. -/
def getNextRequestId (requestId : Int) : Int × Int :=
  let id := requestId
  let next := requestId + 1
  (id, if next > 2147483647 then 1 else next)

/-- The `requestId` field after `n` packets have been sent on one
connection; it starts at 1. -/
def requestIdState : Nat → Int
  | 0 => 1
  | n + 1 => (getNextRequestId (requestIdState n)).2

/-- The id issued for the `(n+1)`-st packet sent on one connection. -/
def issuedRequestId (n : Nat) : Int := (getNextRequestId (requestIdState n)).1

/-! ### Claims C3, C4, C10, C8 -/

/-- Claim C3: `executeCommand` always returns a result whose status is
"success" or "error" (every outcome of the inner call, including any thrown
error, is mapped to a result rather than propagated), and a thrown error
maps to the error result carrying the error message and detail text. -/
theorem executeCommand_normalizes (outcome : Except JsError String) :
    ((executeCommand outcome).status = "success"
      ∨ (executeCommand outcome).status = "error")
    ∧ (∀ e : JsError, executeCommand (Except.error e) =
        { status := "error"
          message := if e.isRconError then e.message else "RCON execution error"
          details := if e.isRconError then e.details else e.message }) := by
  constructor
  · cases outcome
    · right
      rfl
    · left
      rfl
  · intro e
    rfl

/-- Claim C4: an authentication response packet whose id is -1 always fails
with `RconAuthenticationError`, whatever its type and body. -/
theorem authenticate_rejects_id_minus_one (type : Int) (body : String) :
    authenticate (Except.ok (some ⟨-1, type, body⟩)) = Except.error authRejectedError
    ∧ authRejectedError.name = "RconAuthenticationError" := by
  constructor
  · simp [authenticate]
  · rfl

/-- Claim C10: a response packet with an empty body yields a success result
whose details are the literal "Command completed"; on success the details
are never the empty string; and an empty server response is
indistinguishable from a response whose body is the placeholder itself. -/
theorem executeCommand_empty_body_placeholder :
    (∀ id type : Int, executeCommandOnResponse (some ⟨id, type, ""⟩)
      = { status := "success", message := "RCON command executed successfully"
          details := "Command completed" })
    ∧ (∀ s : String, (executeCommand (Except.ok s)).details ≠ "")
    ∧ (∀ id type : Int, executeCommandOnResponse (some ⟨id, type, ""⟩)
        = executeCommandOnResponse (some ⟨id, type, "Command completed"⟩)) := by
  refine ⟨fun id type => rfl, fun s => ?_, fun id type => rfl⟩
  by_cases h : s = "" <;> simp [executeCommand, h]

/-- Claim C8: the request-id counter starts at 1 and the id issued for the
`(n+1)`-st send is `n % 2147483647 + 1`; hence every issued id lies in
`[1, 2147483647]`, the send after the one that issued 2147483647 issues 1,
and otherwise ids increment by 1. -/
theorem issuedRequestId_spec (n : Nat) :
    issuedRequestId n = ((n % 2147483647 : Nat) : Int) + 1
    ∧ 1 ≤ issuedRequestId n ∧ issuedRequestId n ≤ 2147483647
    ∧ issuedRequestId (n + 1)
        = (if issuedRequestId n = 2147483647 then 1 else issuedRequestId n + 1) := by
  have hstate : ∀ m : Nat, requestIdState m = ((m % 2147483647 : Nat) : Int) + 1 := by
    intro m
    induction m with
    | zero => rfl
    | succ k ihk =>
      show (getNextRequestId (requestIdState k)).2 = _
      rw [ihk]
      show (if ((k % 2147483647 : Nat) : Int) + 1 + 1 > 2147483647 then 1
        else ((k % 2147483647 : Nat) : Int) + 1 + 1) = _
      split <;> omega
  have hid : ∀ m : Nat, issuedRequestId m = ((m % 2147483647 : Nat) : Int) + 1 := by
    intro m
    show requestIdState m = _
    exact hstate m
  refine ⟨hid n, ?_, ?_, ?_⟩
  · rw [hid n]; omega
  · rw [hid n]; omega
  · rw [hid (n + 1), hid n]
    split <;> omega

/-! ### Reconnect policy (factorio-rcon.service.ts `retryConnection`) -/

/-- `retryConnection(attempts)` from `factorio-rcon.service.ts`, as a
function of the outcome of each `connect()` call: returns the attempt
indices at which `connect()` was called, the delays awaited (in ms, in
order), and the final outcome.  On failure at attempt index `a`, the next
attempt count is `a + 1`; if it has reached `maxRetries` the error is
rethrown, otherwise the code waits `1000 * (a + 1)` ms and recurses. -/
def retryConnection (maxRetries : Nat) (connectOutcome : Nat → Except JsError Unit)
    (attempts : Nat) : List Nat × List Nat × Except JsError Unit :=
  match connectOutcome attempts with
  | Except.ok () => ([attempts], [], Except.ok ())
  | Except.error e =>
    if h : maxRetries ≤ attempts + 1 then ([attempts], [], Except.error e)
    else
      let r := retryConnection maxRetries connectOutcome (attempts + 1)
      (attempts :: r.1, 1000 * (attempts + 1) :: r.2.1, r.2.2)
  termination_by maxRetries - attempts
  decreasing_by omega

/-- Attempt indices, delays and outcome of `retryConnection` when every
`connect()` call fails, started from attempt count `a < maxRetries`. -/
theorem retryConnection_all_fail (maxRetries : Nat) (errs : Nat → JsError) :
    ∀ (fuel a : Nat), a < maxRetries → maxRetries - a = fuel + 1 →
      retryConnection maxRetries (fun i => Except.error (errs i)) a
        = (List.range' a (maxRetries - a),
           (List.range' (a + 1) (maxRetries - a - 1)).map (fun k => 1000 * k),
           Except.error (errs (maxRetries - 1))) := by
  intro fuel
  induction fuel with
  | zero =>
    intro a ha hfuel
    have hlast : a = maxRetries - 1 := by omega
    unfold retryConnection
    rw [dif_pos (by omega)]
    have h1 : maxRetries - a = 1 := by omega
    rw [h1, hlast]
    rfl
  | succ k ihk =>
    intro a ha hfuel
    unfold retryConnection
    rw [dif_neg (by omega)]
    rw [ihk (a + 1) (by omega) (by omega)]
    have hr : List.range' a (maxRetries - a) = a :: List.range' (a + 1) (maxRetries - (a + 1)) := by
      have hs : maxRetries - a = (maxRetries - (a + 1)) + 1 := by omega
      rw [hs, List.range'_succ]
    rw [hr]
    have hd : List.range' (a + 1) (maxRetries - a - 1)
        = (a + 1) :: List.range' (a + 2) (maxRetries - (a + 1) - 1) := by
      have hs : maxRetries - a - 1 = (maxRetries - (a + 1) - 1) + 1 := by omega
      rw [hs, List.range'_succ]
    rw [hd]
    rfl

/-- Claim C7: when every connect attempt fails, the executor makes exactly
`maxRetries` connect attempts (indices 0 through maxRetries - 1), waits
`attempt * 1000` ms before each retry (1000, 2000, ...), and propagates the
error of the last attempt. -/
theorem retryConnection_exhausts (maxRetries : Nat) (errs : Nat → JsError)
    (hpos : 1 ≤ maxRetries) :
    retryConnection maxRetries (fun i => Except.error (errs i)) 0
      = (List.range' 0 maxRetries,
         (List.range' 1 (maxRetries - 1)).map (fun k => 1000 * k),
         Except.error (errs (maxRetries - 1)))
    ∧ (List.range' 0 maxRetries).length = maxRetries := by
  constructor
  · have h := retryConnection_all_fail maxRetries errs (maxRetries - 1) 0
      (by omega) (by omega)
    simpa using h
  · simp

/-- Witness for C7 at the default configuration `maxRetries = 3`: three
connect attempts, delays of 1000 and 2000 ms, and the third error
propagated. -/
theorem retryConnection_exhausts_witness :
    1 ≤ 3
    ∧ (retryConnection 3 (fun _ => Except.error ⟨"Error", false, "boom", ""⟩) 0
        = (List.range' 0 3,
           (List.range' 1 2).map (fun k => 1000 * k),
           Except.error ((fun _ => (⟨"Error", false, "boom", ""⟩ : JsError)) 2))
      ∧ (List.range' 0 3).length = 3) :=
  ⟨by decide,
    retryConnection_exhausts 3 (fun _ => ⟨"Error", false, "boom", ""⟩) (by decide)⟩

/-! ### Save storage and orchestration (part_013: listSaves, loadSave) -/

/-- One directory entry of the saves directory with its stat metadata:
file name, size in bytes, and modification time (epoch milliseconds). -/
structure FileEntry where
  name : String
  size : Nat
  mtime : Int
deriving DecidableEq

/-- One save record as returned by `listSaves`. -/
structure SaveInfo where
  name : String
  size : Nat
  modified : Int
deriving DecidableEq

/-- Does the text start with the pattern?  Helper for modelling JS
`String.prototype.replace` with a string pattern. -/
def charsStartWith : List Char → List Char → Bool
  | [], _ => true
  | _ :: _, [] => false
  | p :: ps, c :: cs => p == c && charsStartWith ps cs

/-- Remove the first occurrence of `pat` from the character list (identity
when `pat` does not occur), as JS `replace(pat, "")` does. -/
def removeFirstOcc (pat : List Char) : List Char → List Char
  | [] => []
  | c :: cs =>
    if charsStartWith pat (c :: cs) then (c :: cs).drop pat.length
    else c :: removeFirstOcc pat cs

/-- JS `file.replace(".zip", "")`: removes only the FIRST occurrence of
".zip" from the file name (not necessarily the suffix). -/
def jsReplaceZipOnce (s : String) : String := ⟨removeFirstOcc ".zip".data s.data⟩

/-- JS `s.endsWith(pat)`, on the character lists. -/
def jsEndsWith (s pat : String) : Bool :=
  charsStartWith pat.data.reverse s.data.reverse

/-- Stable insertion of one save into a list already sorted newest-first,
modelling the ECMAScript stable sort with comparator
`(a, b) => b.modified - a.modified`. -/
def insertByModifiedDesc (x : SaveInfo) : List SaveInfo → List SaveInfo
  | [] => [x]
  | y :: ys =>
    if y.modified ≤ x.modified then x :: y :: ys
    else y :: insertByModifiedDesc x ys

/-- The array sort used by `listSaves`: newest modification time first. -/
def sortByModifiedDesc (l : List SaveInfo) : List SaveInfo :=
  l.foldr insertByModifiedDesc []

/-- `listSaves` from the orchestrator: keep the `.zip` directory entries, map
each to a save record whose name is the file name with the first ".zip"
occurrence removed, and sort by modification time, newest first. -/
def listSaves (files : List FileEntry) : List SaveInfo :=
  sortByModifiedDesc ((files.filter (fun f => jsEndsWith f.name ".zip")).map
    (fun f => ⟨jsReplaceZipOnce f.name, f.size, f.mtime⟩))

/-- Externally observable process actions of the save-swap orchestration. -/
inductive ProcAction where
  | disconnect
  | killProcess
  | wait (ms : Nat)
  | removeLock
  | startServer (save : String)
  | probe (attempt : Nat)
  | connect
deriving DecidableEq

/-- Errors of the save-swap orchestration, represented symbolically:
`notFound s` stands for the thrown `Error` whose message says the save file
`s` was not found; `readyTimeout` for the readiness-poll timeout;
`connectFailed` for a failed final reconnect; `wrapped s e` for the rethrown
error whose message says loading save `s` failed for reason `e`. -/
inductive LoadErr where
  | notFound (save : String)
  | readyTimeout
  | connectFailed
  | wrapped (save : String) (inner : LoadErr)
deriving DecidableEq

/-- The readiness poll loop of `waitForServerReady`: up to `maxAttempts`
probes, waiting `delayMs` between consecutive probes (no delay after the
last).  `ready` gives each probe outcome; returns the actions performed and
whether the server became ready.  `fuel` counts the remaining loop
iterations. -/
def waitForServerReadyAux (ready : Nat → Bool) (maxAttempts delayMs : Nat) :
    Nat → Nat → List ProcAction × Bool
  | _, 0 => ([], false)
  | attempts, fuel + 1 =>
    if ready attempts then ([ProcAction.probe attempts], true)
    else
      let tail := waitForServerReadyAux ready maxAttempts delayMs (attempts + 1) fuel
      (ProcAction.probe attempts ::
        ((if attempts < maxAttempts - 1 then [ProcAction.wait delayMs] else []) ++ tail.1),
       tail.2)

/-- `waitForServerReady` from the orchestrator: 30 attempts, 2000 ms apart. -/
def waitForServerReady (ready : Nat → Bool) : List ProcAction × Bool :=
  waitForServerReadyAux ready 30 2000 0 30

/-- `loadSave` from the orchestrator (part_013): validate the requested name
against `listSaves`; when absent, throw the not-found error before any
process action.  Otherwise disconnect, kill the server process, wait 5000 ms
for lock release, remove stale locks, start the server with the save, wait
2000 ms, poll for readiness and reconnect.  On a failure after validation
the catch block attempts one best-effort reconnect and rethrows a wrapped
error.  `ready` gives the probe outcomes and `connectOk` the outcome of the
final reconnect; returns the process actions performed and the result. -/
def loadSave (files : List FileEntry) (saveName : String)
    (ready : Nat → Bool) (connectOk : Bool) :
    List ProcAction × Except LoadErr String :=
  if (listSaves files).any (fun s => s.name == saveName) then
    let stopActs : List ProcAction :=
      [ProcAction.disconnect, ProcAction.killProcess, ProcAction.wait 5000,
       ProcAction.removeLock, ProcAction.startServer saveName, ProcAction.wait 2000]
    let w := waitForServerReady ready
    if w.2 then
      if connectOk then
        (stopActs ++ w.1 ++ [ProcAction.connect],
         Except.ok ("Server restarted and loaded save: " ++ saveName))
      else
        (stopActs ++ w.1 ++ [ProcAction.connect, ProcAction.connect],
         Except.error (LoadErr.wrapped saveName LoadErr.connectFailed))
    else
      (stopActs ++ w.1 ++ [ProcAction.connect],
       Except.error (LoadErr.wrapped saveName LoadErr.readyTimeout))
  else ([], Except.error (LoadErr.notFound saveName))

/-! ### Sorting lemmas for listSaves -/

theorem insertByModifiedDesc_perm (x : SaveInfo) (l : List SaveInfo) :
    (insertByModifiedDesc x l).Perm (x :: l) := by
  induction l with
  | nil => exact List.Perm.refl _
  | cons y ys ih =>
    by_cases h : y.modified ≤ x.modified
    · rw [insertByModifiedDesc, if_pos h]
    · rw [insertByModifiedDesc, if_neg h]
      exact (ih.cons y).trans (List.Perm.swap x y ys)

theorem sortByModifiedDesc_perm (l : List SaveInfo) :
    (sortByModifiedDesc l).Perm l := by
  induction l with
  | nil => exact List.Perm.refl _
  | cons y ys ih =>
    show (insertByModifiedDesc y (sortByModifiedDesc ys)).Perm (y :: ys)
    exact (insertByModifiedDesc_perm y _).trans (ih.cons y)

theorem insertByModifiedDesc_pairwise (x : SaveInfo) (l : List SaveInfo)
    (h : l.Pairwise (fun a b => b.modified ≤ a.modified)) :
    (insertByModifiedDesc x l).Pairwise (fun a b => b.modified ≤ a.modified) := by
  induction l with
  | nil => simp [insertByModifiedDesc]
  | cons y ys ih =>
    rw [List.pairwise_cons] at h
    by_cases hyx : y.modified ≤ x.modified
    · rw [insertByModifiedDesc, if_pos hyx, List.pairwise_cons]
      refine ⟨?_, List.pairwise_cons.mpr h⟩
      intro z hz
      rw [List.mem_cons] at hz
      rcases hz with hz | hz
      · rw [hz]; exact hyx
      · exact le_trans (h.1 z hz) hyx
    · rw [insertByModifiedDesc, if_neg hyx, List.pairwise_cons]
      refine ⟨?_, ih h.2⟩
      intro z hz
      have hz' : z ∈ x :: ys := (insertByModifiedDesc_perm x ys).mem_iff.mp hz
      rw [List.mem_cons] at hz'
      rcases hz' with hz' | hz'
      · rw [hz']; omega
      · exact h.1 z hz'

theorem sortByModifiedDesc_pairwise (l : List SaveInfo) :
    (sortByModifiedDesc l).Pairwise (fun a b => b.modified ≤ a.modified) := by
  induction l with
  | nil => simp [sortByModifiedDesc]
  | cons y ys ih => exact insertByModifiedDesc_pairwise y _ ih

/-! ### Claims C9 and C5 -/

/-- Reading of claim C9's record description following the spec's words: the
record names are the file names without the ".zip" suffix. -/
def saveNameWithoutZipSuffix (fileName : String) : String :=
  ⟨fileName.data.take (fileName.data.length - 4)⟩

/-- Claim C9 counterexample: for the saves directory containing only the
file "a.zipb.zip", the single record returned by `listSaves` is named
"ab.zip" (the FIRST ".zip" occurrence is removed), not "a.zipb" (the name
without the ".zip" suffix) as the claim states. -/
theorem listSaves_name_not_suffix_stripped :
    (listSaves [⟨"a.zipb.zip", 7, 5⟩]).map SaveInfo.name = ["ab.zip"]
    ∧ saveNameWithoutZipSuffix "a.zipb.zip" = "a.zipb"
    ∧ ("ab.zip" : String) ≠ "a.zipb" := by
  decide

/-- Claim C9 (amended): for every saves directory whose `.zip` files have
pairwise distinct modification times, `listSaves` returns one record per
`.zip` file — named by the file name with its FIRST ".zip" occurrence
removed, with the file's size and modification time — sorted strictly
newest-modified-first. -/
theorem listSaves_newest_first (files : List FileEntry)
    (hdistinct : ((files.filter (fun f => jsEndsWith f.name ".zip")).map
        FileEntry.mtime).Pairwise (fun a b => a ≠ b)) :
    (listSaves files).Perm
      ((files.filter (fun f => jsEndsWith f.name ".zip")).map
        (fun f => ⟨jsReplaceZipOnce f.name, f.size, f.mtime⟩))
    ∧ (listSaves files).Pairwise (fun a b => b.modified < a.modified) := by
  have hperm : (listSaves files).Perm
      ((files.filter (fun f => jsEndsWith f.name ".zip")).map
        (fun f => ⟨jsReplaceZipOnce f.name, f.size, f.mtime⟩)) :=
    sortByModifiedDesc_perm _
  refine ⟨hperm, ?_⟩
  have hle : (listSaves files).Pairwise (fun a b => b.modified ≤ a.modified) :=
    sortByModifiedDesc_pairwise _
  have hrecs : ((files.filter (fun f => jsEndsWith f.name ".zip")).map
      (fun f => (⟨jsReplaceZipOnce f.name, f.size, f.mtime⟩ : SaveInfo))).Pairwise
      (fun a b => a.modified ≠ b.modified) := by
    rw [List.pairwise_map]
    rw [List.pairwise_map] at hdistinct
    exact hdistinct
  have hne : (listSaves files).Pairwise (fun a b => a.modified ≠ b.modified) :=
    (hperm.pairwise_iff (fun {a b} hab => Ne.symm hab)).mpr hrecs
  have hand := hle.and hne
  exact hand.imp (fun hab => lt_of_le_of_ne hab.1 (fun he => hab.2 he.symm))

/-- Witness for C9 on a directory of three saves with distinct times. -/
theorem listSaves_newest_first_witness :
    ((([⟨"b.zip", 2, 3⟩, ⟨"a.zip", 1, 1⟩, ⟨"c.zip", 3, 2⟩] : List FileEntry).filter
        (fun f => jsEndsWith f.name ".zip")).map FileEntry.mtime).Pairwise
      (fun a b => a ≠ b)
    ∧ ((listSaves [⟨"b.zip", 2, 3⟩, ⟨"a.zip", 1, 1⟩, ⟨"c.zip", 3, 2⟩]).Perm
        ((([⟨"b.zip", 2, 3⟩, ⟨"a.zip", 1, 1⟩, ⟨"c.zip", 3, 2⟩] : List FileEntry).filter
          (fun f => jsEndsWith f.name ".zip")).map
          (fun f => ⟨jsReplaceZipOnce f.name, f.size, f.mtime⟩))
      ∧ (listSaves [⟨"b.zip", 2, 3⟩, ⟨"a.zip", 1, 1⟩, ⟨"c.zip", 3, 2⟩]).Pairwise
          (fun a b => b.modified < a.modified)) :=
  ⟨by decide,
    listSaves_newest_first [⟨"b.zip", 2, 3⟩, ⟨"a.zip", 1, 1⟩, ⟨"c.zip", 3, 2⟩]
      (by decide)⟩

/-- Reading of claim C5's antecedent following the spec's words: a save name
is present as a `.zip` file in the directory when the file `name ++ ".zip"`
is listed. -/
def savePresentAsZip (files : List FileEntry) (saveName : String) : Prop :=
  (saveName ++ ".zip") ∈ files.map FileEntry.name

instance (files : List FileEntry) (saveName : String) :
    Decidable (savePresentAsZip files saveName) :=
  inferInstanceAs (Decidable ((saveName ++ ".zip") ∈ files.map FileEntry.name))

/-- Claim C5 counterexample: in a directory containing only "a.zipb.zip",
the save name "ab.zip" is NOT present as a `.zip` file ("ab.zip.zip" is not
listed), yet `loadSave` does not fail with the not-found error and performs
process actions: the validation compares against the file name with its
FIRST ".zip" occurrence removed, which is "ab.zip". -/
theorem loadSave_notFound_counterexample :
    ¬ savePresentAsZip [⟨"a.zipb.zip", 1, 0⟩] "ab.zip"
    ∧ (loadSave [⟨"a.zipb.zip", 1, 0⟩] "ab.zip" (fun _ => true) true).2
        = Except.ok "Server restarted and loaded save: ab.zip"
    ∧ (loadSave [⟨"a.zipb.zip", 1, 0⟩] "ab.zip" (fun _ => true) true).1 ≠ [] := by
  decide

/-- Claim C5 (amended): for every save name that matches none of the records
listed by `listSaves` (file name with its first ".zip" occurrence removed),
`loadSave` fails with the not-found error and performs no process action. -/
theorem loadSave_absent_notFound (files : List FileEntry) (saveName : String)
    (ready : Nat → Bool) (connectOk : Bool)
    (h : ∀ s ∈ listSaves files, s.name ≠ saveName) :
    loadSave files saveName ready connectOk
      = ([], Except.error (LoadErr.notFound saveName)) := by
  unfold loadSave
  rw [if_neg]
  intro hany
  rw [List.any_eq_true] at hany
  obtain ⟨s, hs, hbeq⟩ := hany
  exact h s hs (by simpa using hbeq)

/-- Witness for C5 on a directory containing only "default.zip" and the
absent name "missing". -/
theorem loadSave_absent_notFound_witness :
    (∀ s ∈ listSaves [⟨"default.zip", 1, 0⟩], s.name ≠ "missing")
    ∧ loadSave [⟨"default.zip", 1, 0⟩] "missing" (fun _ => false) true
        = ([], Except.error (LoadErr.notFound "missing")) :=
  ⟨by decide,
    loadSave_absent_notFound [⟨"default.zip", 1, 0⟩] "missing"
      (fun _ => false) true (by decide)⟩

end FactorioRcon
